import Mathlib

/-!
Verification of the finite-shoe blackjack EV engine in `src/App.tsx`.

The engine is embedded shallowly:

* JavaScript numbers are modelled by `ℚ` (all arithmetic performed by the
  engine on the values of interest is exact dyadic/rational arithmetic).
* The mutable shoe (`Record<Rank, number>`) is modelled by `Shoe := Rank → ℕ`.
  Every function of the engine that mutates the shoe in place is embedded in
  state-passing style, returning the shoe it leaves behind next to its value,
  so that the draw/undraw discipline of the source is visible in the model.
* The recursions of `dealerOutcomeProbs` and `bestActionEV` terminate because
  every draw shrinks the shoe; the embedding makes this explicit with a fuel
  parameter.  All wrappers instantiate the fuel with `shoeTotal + 1`, which is
  one more than the deepest possible draw chain, and along every reachable call
  the fuel equals `shoeTotal + 1` for the shoe at hand, so the fuel never runs
  out before the shoe itself is empty (where the source also stops drawing).
* Memoization (`memo` / `cache`) is not modelled: the caches are keyed by the
  full hand/shoe/context signature and are freshly created per top-level call,
  so they only short-circuit recomputation of identical sub-calls and do not
  change any computed value.
-/

namespace BJack

/-- The 13 card ranks of `type Rank` in the source. -/
inductive Rank
  | A | r2 | r3 | r4 | r5 | r6 | r7 | r8 | r9 | r10 | J | Q | K
deriving DecidableEq, Fintype

/-- `RANKS`: the fixed iteration order used by every loop in the source. -/
def RANKS : List Rank :=
  [.A, .r2, .r3, .r4, .r5, .r6, .r7, .r8, .r9, .r10, .J, .Q, .K]

/-- `rankValue`: ace 11, face cards and ten 10, numerals their face value. -/
def rankValue : Rank → Nat
  | .A => 11
  | .J | .Q | .K | .r10 => 10
  | .r2 => 2
  | .r3 => 3
  | .r4 => 4
  | .r5 => 5
  | .r6 => 6
  | .r7 => 7
  | .r8 => 8
  | .r9 => 9

/-- The `Rules` record.  `blackjackPays` is one of the rationals 3/2 or 6/5 in
the source's UI, but the engine only multiplies by it, so it is kept as `ℚ`. -/
structure Rules where
  decks : Nat
  dealerHitsSoft17 : Bool
  blackjackPays : ℚ
  lateSurrender : Bool
  doubleAllowed : Bool
  doubleAfterSplit : Bool
  resplitPairs : Nat
  splitAcesOneCardOnly : Bool
  resplitAces : Bool
deriving DecidableEq

/-- `DEFAULT_RULES` of the source. -/
def DEFAULT_RULES : Rules :=
  { decks := 6
    dealerHitsSoft17 := true
    blackjackPays := 3/2
    lateSurrender := true
    doubleAllowed := true
    doubleAfterSplit := true
    resplitPairs := 3
    splitAcesOneCardOnly := true
    resplitAces := false }

/-- The ace-placement loop of `handTotals`: the source iterates
`for (i = 0; i < aces; i++)` testing `best + 11 <= 21 - (aces - 1 - i)`.
Here the first argument is the number of aces not yet placed, so at the
source's step `i` it is `aces - i` and the bound `aces - 1 - i` is the `k`
of the pattern `k+1`. -/
def addAces : Nat → Nat → Nat
  | 0, best => best
  | k + 1, best => addAces k (if best + 11 ≤ 21 - k then best + 11 else best + 1)

/-- Result record of `handTotals`. -/
structure Totals where
  hard : Nat
  soft : Option Nat
  isSoft : Bool
  best : Nat
deriving DecidableEq

/-- `handTotals`: `total` sums the non-ace values, `aces` counts aces, the
loop greedily places each ace as 11 when the remaining aces can still all
count as 1 without busting. -/
def handTotals (cards : List Rank) : Totals :=
  let total := (cards.map (fun r => if r = Rank.A then 0 else rankValue r)).sum
  let aces := cards.count Rank.A
  let b := addAces aces total
  let isSoft := decide (0 < aces) && decide (b ≤ 21) && decide (b - total - (aces - 1) = 11)
  { hard := total + aces
    soft := if isSoft then some b else none
    isSoft := isSoft
    best := if isSoft then b else total + aces }

/-- `isBlackjack`: two cards, best total 21, containing an ace. -/
def isBlackjack (cards : List Rank) : Bool :=
  cards.length == 2 && (handTotals cards).best == 21 && cards.contains Rank.A

/-- `isBust`: best total above 21. -/
def isBust (cards : List Rank) : Bool :=
  decide (21 < (handTotals cards).best)

/-- `normalizeRank`: the source maps J/Q/K to the string "10" and leaves the
other ranks alone; the induced equality on ranks is modelled by mapping J/Q/K
to the rank `r10`. -/
def normalizeRank : Rank → Rank
  | .J | .Q | .K => .r10
  | r => r

/-- `canSplit`: two cards of equal normalized rank. -/
def canSplitHand (cards : List Rank) : Bool :=
  match cards with
  | [a, b] => normalizeRank a == normalizeRank b
  | _ => false

/-- The shoe: remaining count per rank. -/
abbrev Shoe := Rank → Nat

/-- `shoeTotal`: sum of all counts. -/
def shoeTotal (s : Shoe) : Nat := (RANKS.map s).sum

/-- `draw`: decrement one rank's count (only ever called on positive counts). -/
def draw (s : Shoe) (r : Rank) : Shoe := fun x => if x = r then s x - 1 else s x

/-- `undraw`: increment one rank's count, the exact inverse of `draw`. -/
def undraw (s : Shoe) (r : Rank) : Shoe := fun x => if x = r then s x + 1 else s x

/-- Outcome keys of the dealer distribution: the string keys `"17"`..`"21"`
are `total n` and the key `"bust"` is `bust`. -/
inductive DealerOutcome
  | total (n : Nat)
  | bust
deriving DecidableEq

/-- A dealer outcome distribution (`Record<string, number>` in the source;
an absent key reads as the source's `out[k] || 0`). -/
abbrev DealerDist := DealerOutcome → ℚ

/-- A one-point distribution, e.g. `{ "21": 1 }`. -/
def dSingle (k : DealerOutcome) : DealerDist := fun x => if x = k then 1 else 0

/-- The dealer standing rule `shouldStand` (a closure over `t` and `rules` in
the source). -/
def shouldStand (rules : Rules) (t : Totals) : Bool :=
  if 21 < t.best then false
  else if t.isSoft then
    if 17 < t.best then true
    else if t.best == 17 then !rules.dealerHitsSoft17
    else false
  else decide (17 ≤ t.best)

/-- The common loop shape of the engine
(`for r of RANKS; if shoe[r] <= 0 continue; p = shoe[r]/tot; draw; child;
undraw; accumulate p * child`), in state-passing form.  `tot` is the shoe
total captured before the loop, `g` is the loop body's child computation
(which receives the shoe after the draw and returns the shoe it leaves). -/
def foldShoe {α : Type} [Add α] [Zero α] [SMul ℚ α]
    (tot : ℚ) (g : Rank → Shoe → α × Shoe) : List Rank → Shoe → α × Shoe
  | [], s => (0, s)
  | r :: rs, s =>
    if 0 < s r then
      let c := g r (draw s r)
      let s2 := undraw c.2 r
      let rest := foldShoe tot g rs s2
      (((s r : ℚ) / tot) • c.1 + rest.1, rest.2)
    else foldShoe tot g rs s

/-- `probsFor`, the inner recursion of `dealerOutcomeProbs`, with fuel.
Order of the source's checks: two-card 21, bust, stand, empty shoe, draw. -/
def probsForF : Nat → Rules → List Rank → Shoe → DealerDist × Shoe
  | 0, _, _, s => (fun _ => 0, s)
  | Nat.succ f, rules, cards, s =>
    let t := handTotals cards
    if cards.length == 2 && t.best == 21 then (dSingle (.total 21), s)
    else if 21 < t.best then (dSingle .bust, s)
    else if shouldStand rules t then (dSingle (.total t.best), s)
    else if shoeTotal s == 0 then (fun _ => 0, s)
    else
      foldShoe ((shoeTotal s : ℚ))
        (fun r s1 => probsForF f rules (cards ++ [r]) s1) RANKS s

/-- `dealerOutcomeProbs`, state-passing: the top level draws the hole card
from the shoe with its natural probability and mixes the resulting
distributions.  Each hole-card branch starts `probsFor` on a shoe that is one
card smaller, so fuel `shoeTotal shoeStart` is exactly `shoeTotal + 1` for
the child's shoe. -/
def dealerOutcomeProbsS (upcard : Rank) (shoeStart : Shoe) (rules : Rules) :
    DealerDist × Shoe :=
  foldShoe ((shoeTotal shoeStart : ℚ))
    (fun r s1 => probsForF (shoeTotal shoeStart) rules [upcard, r] s1)
    RANKS shoeStart

/-- Value part of `dealerOutcomeProbs`. -/
def dealerOutcomeProbs (upcard : Rank) (shoe : Shoe) (rules : Rules) : DealerDist :=
  (dealerOutcomeProbsS upcard shoe rules).1

/-- The totals a standing dealer can end on.  The source's `evStand` iterates
over the keys actually present in the distribution; by `probsForF_supported`
below every key of nonzero probability is `"bust"` or one of `"17"`..`"21"`,
and keys of probability zero contribute zero, so summing over this fixed list
computes the same value. -/
def STAND_TOTALS : List Nat := [17, 18, 19, 20, 21]

/-- The accumulation loop of `evStand`: dealer bust pays +1, otherwise +1 / 0
/ −1 by comparison of totals, each weighted by its probability. -/
def standValue (pt : Nat) (dist : DealerDist) : ℚ :=
  dist .bust +
    (STAND_TOTALS.map (fun dt =>
      if dt < pt then dist (.total dt)
      else if pt < dt then -(dist (.total dt))
      else 0)).sum

/-- `evStand`, state-passing: a busted player hand is −1 before any shoe
access; otherwise the dealer distribution is evaluated on the same shoe. -/
def evStandS (player : List Rank) (upcard : Rank) (rules : Rules) (s : Shoe) :
    ℚ × Shoe :=
  if 21 < (handTotals player).best then (-1, s)
  else
    let d := dealerOutcomeProbsS upcard s rules
    (standValue (handTotals player).best d.1, d.2)

/-- Value part of `evStand`. -/
def evStand (player : List Rank) (upcard : Rank) (rules : Rules) (s : Shoe) : ℚ :=
  (evStandS player upcard rules s).1

/-- `evInitialBlackjack`, state-passing: `(1 - dist["21"]) * blackjackPays`. -/
def evInitialBlackjackS (upcard : Rank) (rules : Rules) (s : Shoe) : ℚ × Shoe :=
  let d := dealerOutcomeProbsS upcard s rules
  ((1 - d.1 (.total 21)) * rules.blackjackPays, d.2)

/-- Value part of `evInitialBlackjack`. -/
def evInitialBlackjack (upcard : Rank) (rules : Rules) (s : Shoe) : ℚ :=
  (evInitialBlackjackS upcard rules s).1

/-- The `PlayerContext` record.  The optional field `doubleAfterSplit?` is
always supplied by the callers in the source, so it is modelled as `Bool`. -/
structure PlayerContext where
  rules : Rules
  upcard : Rank
  canDouble : Bool
  canSplit : Bool
  splitDepth : Nat
  isSplitAces : Bool
  doubleAfterSplit : Bool
deriving DecidableEq

/-- The action keys of the EV table returned by `actionEVsFinite`
(string keys `"Stand"`, `"Hit"`, ... in the source). -/
inductive Move
  | Stand | Hit | Double | Surrender | Split | Blackjack
deriving DecidableEq

/-- The hit loop, shared verbatim between `bestActionEV` and
`actionEVsFinite` in the source: draw each remaining rank, recurse into the
best EV of the extended hand — or, for a one-card-only split-aces hand, stand
on it — and undraw.  `rec` is the recursive evaluator the caller supplies. -/
def hitPart (rec : List Rank → PlayerContext → Shoe → ℚ × Shoe)
    (hand : List Rank) (ctx : PlayerContext) (s : Shoe) : ℚ × Shoe :=
  foldShoe ((shoeTotal s : ℚ))
    (fun r s1 =>
      if ctx.isSplitAces && ctx.rules.splitAcesOneCardOnly then
        evStandS (hand ++ [r]) ctx.upcard ctx.rules s1
      else rec (hand ++ [r]) ctx s1)
    RANKS s

/-- The double loop (same text in `bestActionEV` and `actionEVsFinite`):
draw exactly one card, stand, undraw; the EV is twice the weighted average. -/
def doublePart (hand : List Rank) (ctx : PlayerContext) (s : Shoe) : ℚ × Shoe :=
  let d := foldShoe ((shoeTotal s : ℚ))
    (fun r s1 => evStandS (hand ++ [r]) ctx.upcard ctx.rules s1) RANKS s
  (2 * d.1, d.2)

/-- The split loop (same text in `bestActionEV` and `actionEVsFinite`): for a
pair `[a, b]`, draw each completion card once, evaluate both one-card
sub-hands sequentially against the same shoe under the child context
(`canDouble` from double-after-split, `canSplit` from the resplit limit and
the resplit-aces rule, depth incremented, `isSplitAces` set), undraw, and sum
the two weighted averages.  Split aces under the one-card-only rule stand
immediately on their completion card. -/
def splitPart (rec : List Rank → PlayerContext → Shoe → ℚ × Shoe)
    (a b : Rank) (ctx : PlayerContext) (s : Shoe) : ℚ × Shoe :=
  let sAces := a == Rank.A && b == Rank.A
  let canResplit := decide (ctx.splitDepth < ctx.rules.resplitPairs) &&
    (if sAces then ctx.rules.resplitAces else true)
  let cctx : PlayerContext :=
    { ctx with
        canDouble := ctx.doubleAfterSplit
        canSplit := canResplit
        splitDepth := ctx.splitDepth + 1
        isSplitAces := sAces }
  let pair := foldShoe (α := ℚ × ℚ) ((shoeTotal s : ℚ))
    (fun r s1 =>
      let l := if sAces && ctx.rules.splitAcesOneCardOnly then
          evStandS [a, r] ctx.upcard ctx.rules s1
        else rec [a, r] cctx s1
      let rr := if sAces && ctx.rules.splitAcesOneCardOnly then
          evStandS [b, r] ctx.upcard ctx.rules l.2
        else rec [b, r] cctx l.2
      ((l.1, rr.1), rr.2))
    RANKS s
  (pair.1.1 + pair.1.2, pair.2)

/-- `bestActionEV`, state-passing and fueled.  The source's
`Number.NEGATIVE_INFINITY` placeholders only serve to drop unavailable
actions from `Math.max`; here unavailable actions are `none` and the final
value is the maximum of the available EVs. -/
def bestActionEVF : Nat → List Rank → PlayerContext → Shoe → ℚ × Shoe
  | 0, _, _, s => (0, s)
  | Nat.succ f, hand, ctx, s =>
    if isBust hand then (-1, s)
    else if hand.length == 2 && ctx.splitDepth == 0 && isBlackjack hand then
      evInitialBlackjackS ctx.upcard ctx.rules s
    else
      let st := evStandS hand ctx.upcard ctx.rules s
      let hit := hitPart (fun h c sh => bestActionEVF f h c sh) hand ctx st.2
      let dbl : Option ℚ × Shoe :=
        if ctx.canDouble && hand.length == 2 && ctx.rules.doubleAllowed then
          let d := doublePart hand ctx hit.2
          (some d.1, d.2)
        else (none, hit.2)
      let surr : Option ℚ :=
        if ctx.rules.lateSurrender && hand.length == 2 && ctx.splitDepth == 0 then
          some (-(1/2) : ℚ)
        else none
      let spl : Option ℚ × Shoe :=
        match hand with
        | [a, b] =>
          if ctx.canSplit && (normalizeRank a == normalizeRank b) then
            let sp := splitPart (fun h c sh => bestActionEVF f h c sh) a b ctx dbl.2
            (some sp.1, sp.2)
          else (none, dbl.2)
        | _ => (none, dbl.2)
      ((dbl.1.toList ++ surr.toList ++ spl.1.toList).foldl max (max st.1 hit.1),
        spl.2)

/-- `bestActionEV` on a given shoe: fuel `shoeTotal + 1` never runs out
before the shoe does (each recursion level removes one card). -/
def bestActionEV (hand : List Rank) (ctx : PlayerContext) (s : Shoe) : ℚ :=
  (bestActionEVF (shoeTotal s + 1) hand ctx s).1

/-- `actionEVsFinite`, state-passing: the per-action EV table.  `Stand` and
`Hit` are always present; `Double`, `Surrender`, `Split` and `Blackjack` are
present exactly under the source's conditions (note that, unlike
`bestActionEV`, the `Split` entry here does not consult `ctx.canSplit`, and
there is no early return for busted or blackjack hands). -/
def actionEVsFiniteS (hand : List Rank) (ctx : PlayerContext) (shoe : Shoe) :
    List (Move × ℚ) × Shoe :=
  let st := evStandS hand ctx.upcard ctx.rules shoe
  let totN := shoeTotal st.2
  let hit := hitPart (fun h c sh => bestActionEVF totN h c sh) hand ctx st.2
  let dbl : Option ℚ × Shoe :=
    if ctx.canDouble && hand.length == 2 && ctx.rules.doubleAllowed then
      let d := doublePart hand ctx hit.2
      (some d.1, d.2)
    else (none, hit.2)
  let surr : Option ℚ :=
    if ctx.rules.lateSurrender && hand.length == 2 && ctx.splitDepth == 0 then
      some (-(1/2) : ℚ)
    else none
  let spl : Option ℚ × Shoe :=
    match hand with
    | [a, b] =>
      if normalizeRank a == normalizeRank b then
        let sp := splitPart (fun h c sh => bestActionEVF totN h c sh) a b ctx dbl.2
        (some sp.1, sp.2)
      else (none, dbl.2)
    | _ => (none, dbl.2)
  let bj : Option ℚ × Shoe :=
    if hand.length == 2 && isBlackjack hand then
      let v := evInitialBlackjackS ctx.upcard ctx.rules spl.2
      (some v.1, v.2)
    else (none, spl.2)
  ((Move.Stand, st.1) :: (Move.Hit, hit.1) ::
      ((dbl.1.map (fun v => (Move.Double, v))).toList
        ++ (surr.map (fun v => (Move.Surrender, v))).toList
        ++ (spl.1.map (fun v => (Move.Split, v))).toList
        ++ (bj.1.map (fun v => (Move.Blackjack, v))).toList),
    bj.2)

/-- The EV table of `actionEVsFinite` (an absent key means the action is not
offered). -/
def actionEVsFinite (hand : List Rank) (ctx : PlayerContext) (shoe : Shoe) :
    List (Move × ℚ) :=
  (actionEVsFiniteS hand ctx shoe).1

/-- The probability that the banker's hidden hole card completes a banker
natural (a two-card 21), written from the spec's description of natural
resolution: the hole card is drawn from the shoe with its natural
probability.  This is the `P(banker natural)` of the spec; it is compared
against what `evInitialBlackjack` actually uses. -/
def specBankerNaturalProb (upcard : Rank) (s : Shoe) : ℚ :=
  (RANKS.map (fun r =>
    if 0 < s r then
      (s r : ℚ) / (shoeTotal s : ℚ) *
        (if (handTotals [upcard, r]).best = 21 then 1 else 0)
    else 0)).sum

/-- Total probability mass a dealer distribution assigns to its six possible
keys (17, 18, 19, 20, 21, bust). -/
def distMass (d : DealerDist) : ℚ :=
  d .bust + d (.total 17) + d (.total 18) + d (.total 19) + d (.total 20) +
    d (.total 21)

/-- Every outcome of nonzero probability is a total between 17 and 21 or a
bust: the key set of the source's distribution object is contained in
`{"17", ..., "21", "bust"}`. -/
def distSupported (d : DealerDist) : Prop :=
  ∀ n : Nat, d (.total n) ≠ 0 → 17 ≤ n ∧ n ≤ 21

/-- The empty shoe. -/
def emptyShoe : Shoe := fun _ => 0

/-- A two-card shoe (one 5, one 10) used to exhibit the dealer drawing out to
a multi-card 21 from upcard 6. -/
def shoeFiveTen : Shoe := fun r => if r = Rank.r5 then 1 else if r = Rank.r10 then 1 else 0

/-- The shoe left after drawing the 5 from `shoeFiveTen`. -/
def shoeTenOnly : Shoe := fun r => if r = Rank.r10 then 1 else 0

/-- The shoe left after drawing the 10 from `shoeFiveTen`. -/
def shoeFiveOnly : Shoe := fun r => if r = Rank.r5 then 1 else 0

/-- A one-card shoe (a single 2) on which the dealer cannot finish a hand. -/
def shoeOneTwo : Shoe := fun r => if r = Rank.r2 then 1 else 0

/-- A seventeen-card shoe of tens. -/
def shoeTens : Shoe := fun r => if r = Rank.r10 then 17 else 0

/-- A small shoe with two 8s and two 10s, used to instantiate pair-splitting. -/
def shoeEights : Shoe := fun r =>
  if r = Rank.r8 then 2 else if r = Rank.r10 then 2 else 0

/-- A root decision context against upcard 6 under the default rules. -/
def ctxRoot : PlayerContext :=
  { rules := DEFAULT_RULES
    upcard := Rank.r6
    canDouble := true
    canSplit := true
    splitDepth := 0
    isSplitAces := false
    doubleAfterSplit := DEFAULT_RULES.doubleAfterSplit }

/-- A context for a hand that can no longer double or split. -/
def ctxPlain : PlayerContext :=
  { rules := DEFAULT_RULES
    upcard := Rank.r6
    canDouble := false
    canSplit := false
    splitDepth := 0
    isSplitAces := false
    doubleAfterSplit := DEFAULT_RULES.doubleAfterSplit }

/-! ### Shoe arithmetic -/

theorem undraw_draw (s : Shoe) (r : Rank) (h : 0 < s r) :
    undraw (draw s r) r = s := by
  funext x
  by_cases hx : x = r
  · subst hx
    simp [undraw, draw]
    omega
  · simp [undraw, draw, hx]

theorem shoeTotal_draw (s : Shoe) (r : Rank) (h : 0 < s r) :
    shoeTotal (draw s r) + 1 = shoeTotal s := by
  cases r <;> simp [shoeTotal, RANKS, draw] <;> omega

/-! ### The loops restore the shoe -/

theorem foldShoe_snd {α : Type} [Add α] [Zero α] [SMul ℚ α] (tot : ℚ)
    (g : Rank → Shoe → α × Shoe) (hg : ∀ r s1, (g r s1).2 = s1) :
    ∀ (l : List Rank) (s : Shoe), (foldShoe tot g l s).2 = s := by
  intro l
  induction l with
  | nil => intro s; rfl
  | cons r rs ih =>
    intro s
    by_cases h : 0 < s r
    · simp only [foldShoe, if_pos h, ih, hg, undraw_draw s r h]
    · simp only [foldShoe, if_neg h, ih]

theorem foldShoe_fst {α : Type} [AddMonoid α] [SMul ℚ α] (tot : ℚ)
    (g : Rank → Shoe → α × Shoe) (hg : ∀ r s1, (g r s1).2 = s1) :
    ∀ (l : List Rank) (s : Shoe),
      (foldShoe tot g l s).1 =
        (l.map (fun r =>
          if 0 < s r then ((s r : ℚ) / tot) • (g r (draw s r)).1 else 0)).sum := by
  intro l
  induction l with
  | nil => intro s; rfl
  | cons r rs ih =>
    intro s
    by_cases h : 0 < s r
    · simp only [foldShoe, if_pos h, List.map_cons, List.sum_cons, hg,
        undraw_draw s r h, ih]
    · simp only [foldShoe, if_neg h, List.map_cons, List.sum_cons, ih, zero_add]

theorem probsForF_snd (f : Nat) :
    ∀ (rules : Rules) (cards : List Rank) (s : Shoe),
      (probsForF f rules cards s).2 = s := by
  induction f with
  | zero => intro rules cards s; rfl
  | succ f ih =>
    intro rules cards s
    simp only [probsForF]
    split
    · rfl
    · split
      · rfl
      · split
        · rfl
        · split
          · rfl
          · exact foldShoe_snd _ _ (fun r s1 => ih rules (cards ++ [r]) s1) RANKS s

theorem dealerOutcomeProbsS_snd (upcard : Rank) (s : Shoe) (rules : Rules) :
    (dealerOutcomeProbsS upcard s rules).2 = s :=
  foldShoe_snd _ _ (fun r s1 => probsForF_snd _ rules [upcard, r] s1) RANKS s

theorem evStandS_snd (player : List Rank) (upcard : Rank) (rules : Rules)
    (s : Shoe) : (evStandS player upcard rules s).2 = s := by
  simp only [evStandS]
  split
  · rfl
  · exact dealerOutcomeProbsS_snd upcard s rules

theorem evInitialBlackjackS_snd (upcard : Rank) (rules : Rules) (s : Shoe) :
    (evInitialBlackjackS upcard rules s).2 = s :=
  dealerOutcomeProbsS_snd upcard s rules

theorem hitPart_snd (rec : List Rank → PlayerContext → Shoe → ℚ × Shoe)
    (hrec : ∀ h c s1, (rec h c s1).2 = s1)
    (hand : List Rank) (ctx : PlayerContext) (s : Shoe) :
    (hitPart rec hand ctx s).2 = s := by
  refine foldShoe_snd _ _ (fun r s1 => ?_) RANKS s
  split
  · exact evStandS_snd _ _ _ _
  · exact hrec _ _ _

theorem doublePart_snd (hand : List Rank) (ctx : PlayerContext) (s : Shoe) :
    (doublePart hand ctx s).2 = s :=
  foldShoe_snd _ _ (fun _r _s1 => evStandS_snd _ _ _ _) RANKS s

theorem splitPart_snd (rec : List Rank → PlayerContext → Shoe → ℚ × Shoe)
    (hrec : ∀ h c s1, (rec h c s1).2 = s1)
    (a b : Rank) (ctx : PlayerContext) (s : Shoe) :
    (splitPart rec a b ctx s).2 = s := by
  refine foldShoe_snd (α := ℚ × ℚ) _ _ (fun r s1 => ?_) RANKS s
  split <;> simp only [evStandS_snd, hrec]

theorem bestActionEVF_snd (f : Nat) :
    ∀ (hand : List Rank) (ctx : PlayerContext) (s : Shoe),
      (bestActionEVF f hand ctx s).2 = s := by
  induction f with
  | zero => intro hand ctx s; rfl
  | succ f ih =>
    intro hand ctx s
    have hhit : ∀ (h2 : List Rank) (c2 : PlayerContext) (s2 : Shoe),
        (hitPart (fun h c sh => bestActionEVF f h c sh) h2 c2 s2).2 = s2 :=
      fun h2 c2 s2 => hitPart_snd _ (fun h c s1 => ih h c s1) h2 c2 s2
    have hspl : ∀ (a b : Rank) (c2 : PlayerContext) (s2 : Shoe),
        (splitPart (fun h c sh => bestActionEVF f h c sh) a b c2 s2).2 = s2 :=
      fun a b c2 s2 => splitPart_snd _ (fun h c s1 => ih h c s1) a b c2 s2
    simp only [bestActionEVF]
    split
    · rfl
    · split
      · exact evInitialBlackjackS_snd _ _ _
      · match hand with
        | [a, b] =>
          split_ifs <;>
            simp only [hspl, hhit, doublePart_snd, evStandS_snd,
              apply_ite (fun p : Option ℚ × Shoe => p.2), ite_self]
        | [] => split_ifs <;> simp only [hhit, doublePart_snd, evStandS_snd]
        | [a] => split_ifs <;> simp only [hhit, doublePart_snd, evStandS_snd]
        | a :: b :: c :: t =>
          split_ifs <;> simp only [hhit, doublePart_snd, evStandS_snd]

theorem actionEVsFiniteS_snd (hand : List Rank) (ctx : PlayerContext)
    (shoe : Shoe) : (actionEVsFiniteS hand ctx shoe).2 = shoe := by
  have hB : ∀ (fN : Nat) (h2 : List Rank) (c2 : PlayerContext) (s2 : Shoe),
      (bestActionEVF fN h2 c2 s2).2 = s2 :=
    fun fN => bestActionEVF_snd fN
  have hhit : ∀ (fN : Nat) (h2 : List Rank) (c2 : PlayerContext) (s2 : Shoe),
      (hitPart (fun h c sh => bestActionEVF fN h c sh) h2 c2 s2).2 = s2 :=
    fun fN h2 c2 s2 => hitPart_snd _ (fun h c s1 => hB fN h c s1) h2 c2 s2
  have hspl : ∀ (fN : Nat) (a b : Rank) (c2 : PlayerContext) (s2 : Shoe),
      (splitPart (fun h c sh => bestActionEVF fN h c sh) a b c2 s2).2 = s2 :=
    fun fN a b c2 s2 => splitPart_snd _ (fun h c s1 => hB fN h c s1) a b c2 s2
  simp only [actionEVsFiniteS]
  match hand with
  | [a, b] =>
    split_ifs <;>
      simp only [evInitialBlackjackS_snd, hspl, hhit, doublePart_snd, evStandS_snd,
        apply_ite (fun p : Option ℚ × Shoe => p.2), ite_self]
  | [] =>
    split_ifs <;>
      simp only [evInitialBlackjackS_snd, hhit, doublePart_snd, evStandS_snd]
  | [a] =>
    split_ifs <;>
      simp only [evInitialBlackjackS_snd, hhit, doublePart_snd, evStandS_snd]
  | a :: b :: c :: t =>
    split_ifs <;>
      simp only [evInitialBlackjackS_snd, hhit, doublePart_snd, evStandS_snd]

/-! ### Hand-total arithmetic -/

theorem addAces_ge (k total : Nat) : total + k ≤ addAces k total := by
  induction k generalizing total with
  | zero => simp [addAces]
  | succ k ih =>
    simp only [addAces]
    split
    · have := ih (total + 11); omega
    · have := ih (total + 1); omega

theorem handTotals_soft_best (cards : List Rank)
    (h : (handTotals cards).isSoft = true) :
    (handTotals cards).best = (handTotals cards).hard + 10 := by
  have hge := addAces_ge (cards.count Rank.A)
    ((cards.map (fun r => if r = Rank.A then 0 else rankValue r)).sum)
  simp only [handTotals] at h ⊢
  rw [if_pos h]
  simp only [Bool.and_eq_true, decide_eq_true_eq] at h
  omega

theorem handTotals_hard_best (cards : List Rank)
    (h : (handTotals cards).isSoft = false) :
    (handTotals cards).best = (handTotals cards).hard := by
  simp only [handTotals] at h ⊢
  rw [h]
  simp

theorem length_le_hard (cards : List Rank) :
    cards.length ≤ (handTotals cards).hard := by
  simp only [handTotals]
  induction cards with
  | nil => simp
  | cons r t ih =>
    by_cases hr : r = Rank.A
    · subst hr
      simp only [List.map_cons, List.sum_cons, List.length_cons, List.count_cons]
      simp
      omega
    · have h1 : 1 ≤ rankValue r := by cases r <;> simp [rankValue]
      simp only [List.map_cons, List.sum_cons, List.length_cons, List.count_cons]
      simp [hr]
      omega

theorem one_card_no_bust : ∀ a : Rank, isBust [a] = false := by decide

theorem two_card_no_bust : ∀ a b : Rank, isBust [a, b] = false := by decide

theorem bust_length_ge_three (cards : List Rank) (h : isBust cards = true) :
    3 ≤ cards.length := by
  match cards with
  | [] => exact absurd h (by decide)
  | [a] => simp [one_card_no_bust a] at h
  | [a, b] => simp [two_card_no_bust a b] at h
  | a :: b :: c :: t => simp

theorem shouldStand_ge (rules : Rules) (t : Totals)
    (h : shouldStand rules t = true) : 17 ≤ t.best := by
  simp only [shouldStand] at h
  split_ifs at h <;> simp_all <;> omega

theorem draw_len (rules : Rules) (cards : List Rank)
    (hs : shouldStand rules (handTotals cards) = false)
    (hb : (handTotals cards).best ≤ 21) : cards.length ≤ 16 := by
  have hlen := length_le_hard cards
  by_cases hsoft : (handTotals cards).isSoft = true
  · have hb10 := handTotals_soft_best cards hsoft
    have hle : (handTotals cards).best ≤ 17 := by
      simp only [shouldStand, hsoft] at hs
      split_ifs at hs <;> simp_all <;> omega
    omega
  · rw [Bool.not_eq_true] at hsoft
    have hbe := handTotals_hard_best cards hsoft
    have hle : (handTotals cards).best ≤ 16 := by
      simp only [shouldStand, hsoft] at hs
      split_ifs at hs <;> simp_all <;> omega
    omega

/-! ### Distribution mass and support -/

theorem distMass_zero : distMass (0 : DealerDist) = 0 := by
  simp [distMass]

theorem distMass_add (d e : DealerDist) :
    distMass (d + e) = distMass d + distMass e := by
  simp only [distMass, Pi.add_apply]
  ring

theorem distMass_smul (p : ℚ) (d : DealerDist) :
    distMass (p • d) = p * distMass d := by
  simp only [distMass, Pi.smul_apply, smul_eq_mul]
  ring

theorem distMass_listSum (l : List Rank) (f : Rank → DealerDist) :
    distMass (l.map f).sum = (l.map (fun x => distMass (f x))).sum := by
  induction l with
  | nil => simpa using distMass_zero
  | cons x t ih =>
    simp only [List.map_cons, List.sum_cons, distMass_add, ih]

theorem listSum_apply {γ : Type} (l : List γ) (f : γ → DealerDist) (k : DealerOutcome) :
    ((l.map f).sum) k = (l.map (fun x => f x k)).sum := by
  induction l with
  | nil => rfl
  | cons x t ih => simp [List.sum_cons, Pi.add_apply, ih]

theorem distSupported_zero : distSupported (fun _ => 0) :=
  fun _ h => absurd rfl h

theorem distSupported_add (d e : DealerDist) (hd : distSupported d)
    (he : distSupported e) : distSupported (d + e) := by
  intro n h
  by_cases h1 : d (.total n) = 0
  · refine he n ?_
    simpa [Pi.add_apply, h1] using h
  · exact hd n h1

theorem distSupported_smul (p : ℚ) (d : DealerDist) (hd : distSupported d) :
    distSupported (p • d) := by
  intro n h
  refine hd n (fun h0 => h ?_)
  simp [Pi.smul_apply, h0]

theorem distSupported_listSum (l : List Rank) (f : Rank → DealerDist)
    (hf : ∀ x ∈ l, distSupported (f x)) : distSupported (l.map f).sum := by
  induction l with
  | nil => simpa using distSupported_zero
  | cons x t ih =>
    simp only [List.map_cons, List.sum_cons]
    refine distSupported_add _ _ (hf x (by simp)) (ih ?_)
    intro y hy
    exact hf y (by simp [hy])

theorem sum_div_list (l : List ℚ) (t : ℚ) :
    (l.map (fun x => x / t)).sum = l.sum / t := by
  induction l with
  | nil => simp
  | cons x xs ih => simp [List.sum_cons, ih, add_div]

theorem weights_eq (s : Shoe) (t : ℚ) :
    (RANKS.map (fun r => if 0 < s r then (s r : ℚ) / t else 0)).sum =
      (shoeTotal s : ℚ) / t := by
  have h1 : RANKS.map (fun r => if 0 < s r then (s r : ℚ) / t else 0) =
      RANKS.map (fun r => (s r : ℚ) / t) := by
    refine List.map_congr_left (fun r _ => ?_)
    by_cases h : 0 < s r
    · simp [h]
    · have h0 : s r = 0 := by omega
      simp [h, h0]
  rw [h1]
  have h2 : RANKS.map (fun r => (s r : ℚ) / t) =
      (RANKS.map (fun r => (s r : ℚ))).map (fun x => x / t) := by
    rw [List.map_map]
    rfl
  rw [h2, sum_div_list]
  congr 1
  have h3 : RANKS.map (fun r => (s r : ℚ)) = (RANKS.map s).map (fun n : ℕ => (n : ℚ)) := by
    rw [List.map_map]
    rfl
  rw [h3, shoeTotal, Nat.cast_list_sum]

/-! ### Dealer distribution: support and total mass -/

theorem probsForF_supported (f : Nat) :
    ∀ (rules : Rules) (cards : List Rank) (s : Shoe),
      distSupported (probsForF f rules cards s).1 := by
  induction f with
  | zero => intro _ _ _; exact distSupported_zero
  | succ f ih =>
    intro rules cards s
    simp only [probsForF]
    split_ifs with h1 h2 h3 h4
    · intro n h
      simp only [dSingle] at h
      by_cases he : (DealerOutcome.total n) = (DealerOutcome.total 21)
      · obtain rfl : n = 21 := by injection he
        omega
      · simp [he] at h
    · intro n h
      simp [dSingle] at h
    · intro n h
      simp only [dSingle] at h
      by_cases he : (DealerOutcome.total n) = (DealerOutcome.total (handTotals cards).best)
      · obtain rfl : n = (handTotals cards).best := by injection he
        exact ⟨shouldStand_ge rules _ h3, by omega⟩
      · simp [he] at h
    · exact distSupported_zero
    · rw [foldShoe_fst _ _ (fun r s1 => probsForF_snd f rules (cards ++ [r]) s1)]
      refine distSupported_listSum _ _ (fun r _ => ?_)
      by_cases h : 0 < s r
      · rw [if_pos h]
        exact distSupported_smul _ _ (ih rules (cards ++ [r]) (draw s r))
      · rw [if_neg h]
        exact distSupported_zero

theorem probsForF_mass (f : Nat) :
    ∀ (rules : Rules) (cards : List Rank) (s : Shoe),
      shoeTotal s + 1 ≤ f → 17 ≤ shoeTotal s + cards.length →
      distMass (probsForF f rules cards s).1 = 1 := by
  induction f with
  | zero => intro _ _ _ hf _; omega
  | succ f ih =>
    intro rules cards s hf hc
    simp only [probsForF]
    split_ifs with h1 h2 h3 h4
    · simp [distMass, dSingle]
    · simp [distMass, dSingle]
    · have hge : 17 ≤ (handTotals cards).best := shouldStand_ge rules _ h3
      have hle : (handTotals cards).best ≤ 21 := by omega
      set b := (handTotals cards).best with hb
      interval_cases b <;> simp [distMass, dSingle]
    · exfalso
      have ht0 : shoeTotal s = 0 := by simpa using h4
      have hlen : cards.length ≤ 16 := by
        refine draw_len rules cards ?_ (by omega)
        simpa using h3
      omega
    · rw [foldShoe_fst _ _ (fun r s1 => probsForF_snd f rules (cards ++ [r]) s1),
        distMass_listSum]
      have hterm : ∀ r ∈ RANKS,
          distMass (if 0 < s r then
            ((s r : ℚ) / (shoeTotal s : ℚ)) •
              (probsForF f rules (cards ++ [r]) (draw s r)).1
          else 0) = (if 0 < s r then (s r : ℚ) / (shoeTotal s : ℚ) else 0) := by
        intro r _
        by_cases h : 0 < s r
        · have hd := shoeTotal_draw s r h
          rw [if_pos h, if_pos h, distMass_smul,
            ih rules (cards ++ [r]) (draw s r) (by omega)
              (by simp only [List.length_append, List.length_cons, List.length_nil]; omega),
            mul_one]
        · rw [if_neg h, if_neg h, distMass_zero]
      rw [List.map_congr_left hterm, weights_eq]
      have ht0 : shoeTotal s ≠ 0 := by simpa using h4
      exact div_self (by exact_mod_cast ht0)

theorem probsForF_draw_eq (f : Nat) (rules : Rules) (cards : List Rank) (s : Shoe)
    (h1 : ((cards.length == 2 && (handTotals cards).best == 21) : Bool) = false)
    (h2 : (handTotals cards).best ≤ 21)
    (h3 : shouldStand rules (handTotals cards) = false)
    (h4 : shoeTotal s ≠ 0) :
    probsForF (f + 1) rules cards s =
      foldShoe ((shoeTotal s : ℚ))
        (fun r s1 => probsForF f rules (cards ++ [r]) s1) RANKS s := by
  simp only [probsForF]
  rw [if_neg (by simp [h1]), if_neg (by omega), if_neg (by simp [h3]),
    if_neg (by simpa using h4)]

theorem dealerOutcomeProbs_supported (upcard : Rank) (s : Shoe) (rules : Rules) :
    distSupported (dealerOutcomeProbs upcard s rules) := by
  unfold dealerOutcomeProbs dealerOutcomeProbsS
  rw [foldShoe_fst _ _ (fun r s1 => probsForF_snd _ rules [upcard, r] s1)]
  refine distSupported_listSum _ _ (fun r _ => ?_)
  by_cases h : 0 < s r
  · rw [if_pos h]
    exact distSupported_smul _ _ (probsForF_supported _ rules [upcard, r] (draw s r))
  · rw [if_neg h]
    exact distSupported_zero

theorem dealerOutcomeProbs_mass (upcard : Rank) (s : Shoe) (rules : Rules)
    (h17 : 17 ≤ shoeTotal s) :
    distMass (dealerOutcomeProbs upcard s rules) = 1 := by
  unfold dealerOutcomeProbs dealerOutcomeProbsS
  rw [foldShoe_fst _ _ (fun r s1 => probsForF_snd _ rules [upcard, r] s1),
    distMass_listSum]
  have hterm : ∀ r ∈ RANKS,
      distMass (if 0 < s r then
        ((s r : ℚ) / (shoeTotal s : ℚ)) •
          (probsForF (shoeTotal s) rules [upcard, r] (draw s r)).1
      else 0) = (if 0 < s r then (s r : ℚ) / (shoeTotal s : ℚ) else 0) := by
    intro r _
    by_cases h : 0 < s r
    · have hd := shoeTotal_draw s r h
      rw [if_pos h, if_pos h, distMass_smul,
        probsForF_mass (shoeTotal s) rules [upcard, r] (draw s r) (by omega)
          (by simp only [List.length_cons, List.length_nil]; omega),
        mul_one]
    · rw [if_neg h, if_neg h, distMass_zero]
  rw [List.map_congr_left hterm, weights_eq]
  exact div_self (by exact_mod_cast (by omega : shoeTotal s ≠ 0))

/-! ### Value-level equations for the action table -/

theorem move_beq (a b : Move) : (a == b) = decide (a = b) := rfl

theorem shoe_zero (s : Shoe) (h0 : shoeTotal s = 0) : ∀ r : Rank, s r = 0 := by
  intro r
  cases r <;> simp [shoeTotal, RANKS] at h0 <;> omega

theorem foldShoe_zero {α : Type} [Add α] [Zero α] [SMul ℚ α] (tot : ℚ)
    (g : Rank → Shoe → α × Shoe) (s : Shoe) (hs : ∀ r, s r = 0) :
    ∀ l : List Rank, foldShoe tot g l s = (0, s) := by
  intro l
  induction l with
  | nil => rfl
  | cons r rs ih =>
    have h : ¬0 < s r := by simp [hs r]
    simp only [foldShoe, if_neg h, ih]

theorem listSum_fst {γ : Type} (l : List γ) (f : γ → ℚ × ℚ) :
    ((l.map f).sum).1 = (l.map (fun x => (f x).1)).sum := by
  induction l with
  | nil => rfl
  | cons x t ih => simp [List.sum_cons, Prod.fst_add, ih]

theorem listSum_snd {γ : Type} (l : List γ) (f : γ → ℚ × ℚ) :
    ((l.map f).sum).2 = (l.map (fun x => (f x).2)).sum := by
  induction l with
  | nil => rfl
  | cons x t ih => simp [List.sum_cons, Prod.snd_add, ih]

theorem doublePart_fst (hand : List Rank) (ctx : PlayerContext) (s : Shoe) :
    (doublePart hand ctx s).1 =
      2 * (RANKS.map (fun r =>
        if 0 < s r then
          (s r : ℚ) / (shoeTotal s : ℚ) *
            evStand (hand ++ [r]) ctx.upcard ctx.rules (draw s r)
        else 0)).sum := by
  unfold doublePart
  dsimp only
  rw [foldShoe_fst _ _ (fun _r _s1 => evStandS_snd _ _ _ _)]
  simp only [smul_eq_mul]
  rfl

theorem splitPart_fst (rec : List Rank → PlayerContext → Shoe → ℚ × Shoe)
    (hrec : ∀ h c s1, (rec h c s1).2 = s1)
    (a b : Rank) (ctx : PlayerContext) (s : Shoe) :
    (splitPart rec a b ctx s).1 =
      (RANKS.map (fun r =>
        if 0 < s r then
          (s r : ℚ) / (shoeTotal s : ℚ) *
            (if (a == Rank.A && b == Rank.A) && ctx.rules.splitAcesOneCardOnly then
              evStandS [a, r] ctx.upcard ctx.rules (draw s r)
            else
              rec [a, r]
                { ctx with
                    canDouble := ctx.doubleAfterSplit
                    canSplit := decide (ctx.splitDepth < ctx.rules.resplitPairs) &&
                      (if a == Rank.A && b == Rank.A then ctx.rules.resplitAces else true)
                    splitDepth := ctx.splitDepth + 1
                    isSplitAces := a == Rank.A && b == Rank.A }
                (draw s r)).1
        else 0)).sum +
      (RANKS.map (fun r =>
        if 0 < s r then
          (s r : ℚ) / (shoeTotal s : ℚ) *
            (if (a == Rank.A && b == Rank.A) && ctx.rules.splitAcesOneCardOnly then
              evStandS [b, r] ctx.upcard ctx.rules (draw s r)
            else
              rec [b, r]
                { ctx with
                    canDouble := ctx.doubleAfterSplit
                    canSplit := decide (ctx.splitDepth < ctx.rules.resplitPairs) &&
                      (if a == Rank.A && b == Rank.A then ctx.rules.resplitAces else true)
                    splitDepth := ctx.splitDepth + 1
                    isSplitAces := a == Rank.A && b == Rank.A }
                (draw s r)).1
        else 0)).sum := by
  unfold splitPart
  dsimp only
  rw [foldShoe_fst (α := ℚ × ℚ) _ _ (fun r s1 => by
    dsimp only
    split <;> simp only [evStandS_snd, hrec])]
  rw [listSum_fst, listSum_snd]
  congr 1
  · refine congrArg List.sum (List.map_congr_left (fun r _ => ?_))
    by_cases h : 0 < s r
    · simp only [if_pos h, Prod.smul_fst, smul_eq_mul]
    · simp only [if_neg h, Prod.fst_zero]
  · refine congrArg List.sum (List.map_congr_left (fun r _ => ?_))
    by_cases h : 0 < s r
    · simp only [if_pos h, Prod.smul_snd, smul_eq_mul]
      split <;> simp only [evStandS_snd, hrec]
    · simp only [if_neg h, Prod.snd_zero]

/-! ### Claim theorems -/

/-- C1: the claim states that the EV of the initial-natural bypass is
`(1 − P(banker natural)) × blackjackPayout`, and in particular exactly the
payout against upcard 6 (from which no two-card banker 21 exists).  The code
instead multiplies by `1 − dist["21"]`, where the `"21"` bucket contains every
final dealer total of 21, naturals and multi-card 21s alike.  On the witness
shoe (one 5 and one 10 left, upcard 6) the dealer always draws out to a
three-card 21, so the code's bypass EV is 0 while the claim's formula gives
`(1 − 0) × 3/2 = 3/2`. -/
theorem C1_natural_bypass_divergence :
    specBankerNaturalProb Rank.r6 shoeFiveTen = 0 ∧
    (1 - specBankerNaturalProb Rank.r6 shoeFiveTen) * DEFAULT_RULES.blackjackPays = 3/2 ∧
    dealerOutcomeProbs Rank.r6 shoeFiveTen DEFAULT_RULES (.total 21) = 1 ∧
    evInitialBlackjack Rank.r6 DEFAULT_RULES shoeFiveTen = 0 := by
  have hv : ∀ r, shoeFiveTen r =
      if r = Rank.r5 then 1 else if r = Rank.r10 then 1 else 0 := fun _ => rfl
  have hs2 : shoeTotal shoeFiveTen = 2 := by decide
  have hd5 : draw shoeFiveTen Rank.r5 = shoeTenOnly := by
    funext x; cases x <;> rfl
  have hd10 : draw shoeFiveTen Rank.r10 = shoeFiveOnly := by
    funext x; cases x <;> rfl
  have hb5 : (handTotals [Rank.r6, Rank.r5]).best = 11 := rfl
  have hb10 : (handTotals [Rank.r6, Rank.r10]).best = 16 := rfl
  have hspec : specBankerNaturalProb Rank.r6 shoeFiveTen = 0 := by
    unfold specBankerNaturalProb
    simp [RANKS, hv, hb5, hb10]
  have m5 : (probsForF 2 DEFAULT_RULES [Rank.r6, Rank.r5] shoeTenOnly).1
      (DealerOutcome.total 21) = 1 := by
    have hvT : ∀ r, shoeTenOnly r = if r = Rank.r10 then 1 else 0 := fun _ => rfl
    have hsT : shoeTotal shoeTenOnly = 1 := by decide
    have e5 : (probsForF 1 DEFAULT_RULES [Rank.r6, Rank.r5, Rank.r10]
        (draw shoeTenOnly Rank.r10)).1 (DealerOutcome.total 21) = 1 := rfl
    rw [show probsForF 2 DEFAULT_RULES [Rank.r6, Rank.r5] shoeTenOnly =
        foldShoe ((shoeTotal shoeTenOnly : ℚ))
          (fun r s1 => probsForF 1 DEFAULT_RULES ([Rank.r6, Rank.r5] ++ [r]) s1)
          RANKS shoeTenOnly from
      probsForF_draw_eq 1 DEFAULT_RULES [Rank.r6, Rank.r5] shoeTenOnly
        (by decide) (by decide) (by decide) (by decide)]
    rw [foldShoe_fst _ _ (fun r s1 => probsForF_snd 1 DEFAULT_RULES _ s1),
      listSum_apply]
    simp [RANKS, hvT, hsT, e5, Pi.smul_apply]
  have m10 : (probsForF 2 DEFAULT_RULES [Rank.r6, Rank.r10] shoeFiveOnly).1
      (DealerOutcome.total 21) = 1 := by
    have hvF : ∀ r, shoeFiveOnly r = if r = Rank.r5 then 1 else 0 := fun _ => rfl
    have hsF : shoeTotal shoeFiveOnly = 1 := by decide
    have e10 : (probsForF 1 DEFAULT_RULES [Rank.r6, Rank.r10, Rank.r5]
        (draw shoeFiveOnly Rank.r5)).1 (DealerOutcome.total 21) = 1 := rfl
    rw [show probsForF 2 DEFAULT_RULES [Rank.r6, Rank.r10] shoeFiveOnly =
        foldShoe ((shoeTotal shoeFiveOnly : ℚ))
          (fun r s1 => probsForF 1 DEFAULT_RULES ([Rank.r6, Rank.r10] ++ [r]) s1)
          RANKS shoeFiveOnly from
      probsForF_draw_eq 1 DEFAULT_RULES [Rank.r6, Rank.r10] shoeFiveOnly
        (by decide) (by decide) (by decide) (by decide)]
    rw [foldShoe_fst _ _ (fun r s1 => probsForF_snd 1 DEFAULT_RULES _ s1),
      listSum_apply]
    simp [RANKS, hvF, hsF, e10, Pi.smul_apply]
  have hdist : dealerOutcomeProbs Rank.r6 shoeFiveTen DEFAULT_RULES
      (DealerOutcome.total 21) = 1 := by
    unfold dealerOutcomeProbs dealerOutcomeProbsS
    rw [foldShoe_fst _ _ (fun r s1 => probsForF_snd _ _ _ s1), listSum_apply]
    simp [RANKS, hv, hs2, hd5, hd10, m5, m10, Pi.smul_apply]
    norm_num
  have hev : evInitialBlackjack Rank.r6 DEFAULT_RULES shoeFiveTen = 0 := by
    unfold evInitialBlackjack evInitialBlackjackS
    dsimp only
    rw [show (dealerOutcomeProbsS Rank.r6 shoeFiveTen DEFAULT_RULES).1
        (DealerOutcome.total 21) = 1 from hdist]
    norm_num
  refine ⟨hspec, ?_, hdist, hev⟩
  rw [hspec]
  norm_num [DEFAULT_RULES]

/-- C2 (counterexample): the claim says a busted hand's table contains Stand
with EV −1 and no other action entry; but `actionEVsFinite` unconditionally
inserts a `Hit` entry, busted or not. -/
theorem C2_counterexample :
    isBust [Rank.r10, Rank.r10, Rank.r5] = true ∧
    (List.lookup Move.Hit
      (actionEVsFinite [Rank.r10, Rank.r10, Rank.r5] ctxPlain emptyShoe)).isSome = true :=
  ⟨by decide, by decide⟩

/-- C2 (amended): for every busted hand the table contains Stand with EV
exactly −1 and also a Hit entry; no Double, Surrender, Split or Blackjack
entry is present (a busted hand has at least three cards, so every
two-card-only action is ruled out). -/
theorem C2_bust_table (hand : List Rank) (ctx : PlayerContext) (shoe : Shoe)
    (h : isBust hand = true) :
    List.lookup Move.Stand (actionEVsFinite hand ctx shoe) = some (-1) ∧
    (List.lookup Move.Hit (actionEVsFinite hand ctx shoe)).isSome = true ∧
    List.lookup Move.Double (actionEVsFinite hand ctx shoe) = none ∧
    List.lookup Move.Surrender (actionEVsFinite hand ctx shoe) = none ∧
    List.lookup Move.Split (actionEVsFinite hand ctx shoe) = none ∧
    List.lookup Move.Blackjack (actionEVsFinite hand ctx shoe) = none := by
  have h3 := bust_length_ge_three hand h
  have hbust : 21 < (handTotals hand).best := by simpa [isBust] using h
  match hand, h3 with
  | a :: b :: c :: t, _ =>
    have hlen : (((a :: b :: c :: t).length == 2) : Bool) = false := by
      simp [List.length_cons]
    unfold actionEVsFinite actionEVsFiniteS
    simp [hlen, List.lookup, move_beq, evStandS, hbust]

/-- C2 witness: the amended statement at the concrete busted hand 10-10-5. -/
theorem C2_bust_table_witness :
    isBust [Rank.r10, Rank.r5, Rank.r10] = true ∧
    (List.lookup Move.Stand
        (actionEVsFinite [Rank.r10, Rank.r5, Rank.r10] ctxPlain emptyShoe) = some (-1) ∧
      (List.lookup Move.Hit
        (actionEVsFinite [Rank.r10, Rank.r5, Rank.r10] ctxPlain emptyShoe)).isSome = true ∧
      List.lookup Move.Double
        (actionEVsFinite [Rank.r10, Rank.r5, Rank.r10] ctxPlain emptyShoe) = none ∧
      List.lookup Move.Surrender
        (actionEVsFinite [Rank.r10, Rank.r5, Rank.r10] ctxPlain emptyShoe) = none ∧
      List.lookup Move.Split
        (actionEVsFinite [Rank.r10, Rank.r5, Rank.r10] ctxPlain emptyShoe) = none ∧
      List.lookup Move.Blackjack
        (actionEVsFinite [Rank.r10, Rank.r5, Rank.r10] ctxPlain emptyShoe) = none) := by
  have hc2 := C2_bust_table [Rank.r10, Rank.r5, Rank.r10] ctxPlain emptyShoe (by decide)
  exact ⟨by decide, hc2⟩

/-- C3 (counterexample): the claim asserts the banker outcome probabilities
sum to 1 for every shoe with positive total; on a one-card shoe (a single 2,
upcard 2 with positive remaining count) the dealer must draw from an empty
shoe, that branch contributes zero weight, and the distribution's total mass
is 0, not 1. -/
theorem C3_counterexample :
    0 < shoeTotal shoeOneTwo ∧ 0 < shoeOneTwo Rank.r2 ∧
    distMass (dealerOutcomeProbs Rank.r2 shoeOneTwo DEFAULT_RULES) ≠ 1 := by
  refine ⟨by decide, by decide, ?_⟩
  have hv : ∀ r, shoeOneTwo r = if r = Rank.r2 then 1 else 0 := fun _ => rfl
  have hs1 : shoeTotal shoeOneTwo = 1 := by decide
  have hz : (probsForF 1 DEFAULT_RULES [Rank.r2, Rank.r2]
      (draw shoeOneTwo Rank.r2)).1 = (0 : DealerDist) := rfl
  have h0 : dealerOutcomeProbs Rank.r2 shoeOneTwo DEFAULT_RULES = (0 : DealerDist) := by
    unfold dealerOutcomeProbs dealerOutcomeProbsS
    rw [foldShoe_fst _ _ (fun r s1 => probsForF_snd _ _ _ s1)]
    simp [RANKS, hv, hs1, hz]
  rw [h0, distMass_zero]
  exact zero_ne_one

/-- C3 (amended): whenever at least 17 cards remain in the shoe (so the
banker can never exhaust it before standing or busting) and the upcard has a
positive remaining count, the banker outcome distribution has total mass
exactly 1, and every outcome of nonzero probability is a total in 17..21 or
a bust. -/
theorem C3_dealer_mass (upcard : Rank) (s : Shoe) (rules : Rules)
    (h17 : 17 ≤ shoeTotal s) (_hup : 0 < s upcard) :
    distMass (dealerOutcomeProbs upcard s rules) = 1 ∧
    distSupported (dealerOutcomeProbs upcard s rules) :=
  ⟨dealerOutcomeProbs_mass upcard s rules h17,
    dealerOutcomeProbs_supported upcard s rules⟩

/-- C3 witness: the amended statement on a 17-card shoe of tens, upcard 10. -/
theorem C3_dealer_mass_witness :
    17 ≤ shoeTotal shoeTens ∧ 0 < shoeTens Rank.r10 ∧
    (distMass (dealerOutcomeProbs Rank.r10 shoeTens DEFAULT_RULES) = 1 ∧
      distSupported (dealerOutcomeProbs Rank.r10 shoeTens DEFAULT_RULES)) :=
  ⟨by decide, by decide,
    C3_dealer_mass Rank.r10 shoeTens DEFAULT_RULES (by decide) (by decide)⟩

/-- C4: a top-level `actionEVsFinite` (`evaluateHand`) call leaves every
per-rank count of the shoe exactly as it found it: each draw performed
anywhere inside the recursion is undone before the enclosing frame returns,
on every exit path. -/
theorem C4_evaluateHand_restores_shoe (hand : List Rank) (ctx : PlayerContext)
    (shoe : Shoe) :
    ∀ r : Rank, (actionEVsFiniteS hand ctx shoe).2 r = shoe r := by
  intro r
  rw [actionEVsFiniteS_snd]

/-- C5: a non-busted banker hand stands exactly when its total is hard and at
least 17, or soft and above 17, or soft 17 under a stand-on-soft-17 rule set. -/
theorem C5_dealer_standing_rule (rules : Rules) (cards : List Rank)
    (h : (handTotals cards).best ≤ 21) :
    (shouldStand rules (handTotals cards) = true ↔
      ((handTotals cards).isSoft = false ∧ 17 ≤ (handTotals cards).best) ∨
      ((handTotals cards).isSoft = true ∧
        (17 < (handTotals cards).best ∨
          ((handTotals cards).best = 17 ∧ rules.dealerHitsSoft17 = false)))) := by
  simp only [shouldStand]
  split_ifs with h1 h2 h3 h4
  · exact absurd h1 (by omega)
  · simp [h2, h3]
  · have hbe : (handTotals cards).best = 17 := by simpa using h4
    simp [h2, h3, hbe, Bool.not_eq_true']
  · have hbe : (handTotals cards).best ≠ 17 := by simpa using h4
    simp [h2, h3, hbe]
  · rw [Bool.not_eq_true] at h2
    simp [h2]

/-- C5 witness: the standing rule evaluated on the hard 17 hand 10-7. -/
theorem C5_dealer_standing_rule_witness :
    (handTotals [Rank.r10, Rank.r7]).best ≤ 21 ∧
    (shouldStand DEFAULT_RULES (handTotals [Rank.r10, Rank.r7]) = true ↔
      ((handTotals [Rank.r10, Rank.r7]).isSoft = false ∧
        17 ≤ (handTotals [Rank.r10, Rank.r7]).best) ∨
      ((handTotals [Rank.r10, Rank.r7]).isSoft = true ∧
        (17 < (handTotals [Rank.r10, Rank.r7]).best ∨
          ((handTotals [Rank.r10, Rank.r7]).best = 17 ∧
            DEFAULT_RULES.dealerHitsSoft17 = false)))) :=
  ⟨by decide, C5_dealer_standing_rule DEFAULT_RULES [Rank.r10, Rank.r7] (by decide)⟩

/-- C6: the Double entry exists iff the hand has exactly two cards and
doubling is allowed by both the context and the global rule; its EV is twice
the shoe-weighted average, over the ranks with positive count, of the
stand-EV of the hand extended by that one card. -/
theorem C6_double_entry (hand : List Rank) (ctx : PlayerContext) (shoe : Shoe) :
    List.lookup Move.Double (actionEVsFinite hand ctx shoe) =
      if ctx.canDouble && hand.length == 2 && ctx.rules.doubleAllowed then
        some (2 * (RANKS.map (fun r =>
          if 0 < shoe r then
            (shoe r : ℚ) / (shoeTotal shoe : ℚ) *
              evStand (hand ++ [r]) ctx.upcard ctx.rules (draw shoe r)
          else 0)).sum)
      else none := by
  have hB : ∀ (fN : Nat) (h2 : List Rank) (c2 : PlayerContext) (s2 : Shoe),
      (bestActionEVF fN h2 c2 s2).2 = s2 := fun fN => bestActionEVF_snd fN
  have hhit : ∀ (fN : Nat) (h2 : List Rank) (c2 : PlayerContext) (s2 : Shoe),
      (hitPart (fun h c sh => bestActionEVF fN h c sh) h2 c2 s2).2 = s2 :=
    fun fN h2 c2 s2 => hitPart_snd _ (fun h c s1 => hB fN h c s1) h2 c2 s2
  unfold actionEVsFinite actionEVsFiniteS
  simp only [evStandS_snd, hhit]
  match hand with
  | [a, b] =>
    by_cases hab : normalizeRank a = normalizeRank b <;> split_ifs <;>
      simp [hab, List.lookup, move_beq, doublePart_fst, Option.toList]
  | [] =>
    split_ifs <;> simp [List.lookup, move_beq, doublePart_fst, Option.toList]
  | [a] =>
    split_ifs <;> simp [List.lookup, move_beq, doublePart_fst, Option.toList]
  | a :: b :: c :: t =>
    split_ifs <;> simp [List.lookup, move_beq, doublePart_fst, Option.toList]

/-- C7: the Surrender entry exists iff late surrender is enabled, the hand
has exactly two cards and the split depth is 0; its EV is the constant −1/2,
independent of the shoe. -/
theorem C7_surrender_entry (hand : List Rank) (ctx : PlayerContext) (shoe : Shoe) :
    List.lookup Move.Surrender (actionEVsFinite hand ctx shoe) =
      if ctx.rules.lateSurrender && hand.length == 2 && ctx.splitDepth == 0 then
        some (-(1/2) : ℚ)
      else none := by
  have hB : ∀ (fN : Nat) (h2 : List Rank) (c2 : PlayerContext) (s2 : Shoe),
      (bestActionEVF fN h2 c2 s2).2 = s2 := fun fN => bestActionEVF_snd fN
  have hhit : ∀ (fN : Nat) (h2 : List Rank) (c2 : PlayerContext) (s2 : Shoe),
      (hitPart (fun h c sh => bestActionEVF fN h c sh) h2 c2 s2).2 = s2 :=
    fun fN h2 c2 s2 => hitPart_snd _ (fun h c s1 => hB fN h c s1) h2 c2 s2
  unfold actionEVsFinite actionEVsFiniteS
  simp only [evStandS_snd, hhit]
  match hand with
  | [a, b] =>
    by_cases hab : normalizeRank a = normalizeRank b <;> split_ifs <;>
      simp [hab, List.lookup, move_beq, Option.toList]
  | [] =>
    split_ifs <;> simp [List.lookup, move_beq, Option.toList]
  | [a] =>
    split_ifs <;> simp [List.lookup, move_beq, Option.toList]
  | a :: b :: c :: t =>
    split_ifs <;> simp [List.lookup, move_beq, Option.toList]

/-- C8: when the table's Split action is evaluated on a pair `[a, b]`, each
one-card sub-hand is completed by one drawn card and then evaluated: under
split-aces-one-card it must stand immediately, otherwise its best EV is
computed in a child context whose doubling permission is the
double-after-split setting, whose split depth is the parent depth plus one,
and whose splitting permission requires the parent depth to be below the
resplit limit and, for a pair of aces, the resplit-aces rule; the Split EV is
the sum of the two sub-hands' shoe-weighted averages. -/
theorem C8_split_entry (a b : Rank) (ctx : PlayerContext) (shoe : Shoe) :
    List.lookup Move.Split (actionEVsFinite [a, b] ctx shoe) =
      (if normalizeRank a = normalizeRank b then
        some
          ((RANKS.map (fun r =>
            if 0 < shoe r then
              (shoe r : ℚ) / (shoeTotal shoe : ℚ) *
                (if (a == Rank.A && b == Rank.A) && ctx.rules.splitAcesOneCardOnly then
                  evStand [a, r] ctx.upcard ctx.rules (draw shoe r)
                else
                  bestActionEV [a, r]
                    { ctx with
                        canDouble := ctx.doubleAfterSplit
                        canSplit := decide (ctx.splitDepth < ctx.rules.resplitPairs) &&
                          (if a == Rank.A && b == Rank.A then ctx.rules.resplitAces
                          else true)
                        splitDepth := ctx.splitDepth + 1
                        isSplitAces := a == Rank.A && b == Rank.A }
                    (draw shoe r))
            else 0)).sum +
          (RANKS.map (fun r =>
            if 0 < shoe r then
              (shoe r : ℚ) / (shoeTotal shoe : ℚ) *
                (if (a == Rank.A && b == Rank.A) && ctx.rules.splitAcesOneCardOnly then
                  evStand [b, r] ctx.upcard ctx.rules (draw shoe r)
                else
                  bestActionEV [b, r]
                    { ctx with
                        canDouble := ctx.doubleAfterSplit
                        canSplit := decide (ctx.splitDepth < ctx.rules.resplitPairs) &&
                          (if a == Rank.A && b == Rank.A then ctx.rules.resplitAces
                          else true)
                        splitDepth := ctx.splitDepth + 1
                        isSplitAces := a == Rank.A && b == Rank.A }
                    (draw shoe r))
            else 0)).sum)
      else none) := by
  have hB : ∀ (fN : Nat) (h2 : List Rank) (c2 : PlayerContext) (s2 : Shoe),
      (bestActionEVF fN h2 c2 s2).2 = s2 := fun fN => bestActionEVF_snd fN
  have hhit : ∀ (fN : Nat) (h2 : List Rank) (c2 : PlayerContext) (s2 : Shoe),
      (hitPart (fun h c sh => bestActionEVF fN h c sh) h2 c2 s2).2 = s2 :=
    fun fN h2 c2 s2 => hitPart_snd _ (fun h c s1 => hB fN h c s1) h2 c2 s2
  have hSplitVal :
      (splitPart (fun h c sh => bestActionEVF (shoeTotal shoe) h c sh) a b ctx shoe).1 =
        (RANKS.map (fun r =>
          if 0 < shoe r then
            (shoe r : ℚ) / (shoeTotal shoe : ℚ) *
              (if (a == Rank.A && b == Rank.A) && ctx.rules.splitAcesOneCardOnly then
                evStand [a, r] ctx.upcard ctx.rules (draw shoe r)
              else
                bestActionEV [a, r]
                  { ctx with
                      canDouble := ctx.doubleAfterSplit
                      canSplit := decide (ctx.splitDepth < ctx.rules.resplitPairs) &&
                        (if a == Rank.A && b == Rank.A then ctx.rules.resplitAces
                        else true)
                      splitDepth := ctx.splitDepth + 1
                      isSplitAces := a == Rank.A && b == Rank.A }
                  (draw shoe r))
          else 0)).sum +
        (RANKS.map (fun r =>
          if 0 < shoe r then
            (shoe r : ℚ) / (shoeTotal shoe : ℚ) *
              (if (a == Rank.A && b == Rank.A) && ctx.rules.splitAcesOneCardOnly then
                evStand [b, r] ctx.upcard ctx.rules (draw shoe r)
              else
                bestActionEV [b, r]
                  { ctx with
                      canDouble := ctx.doubleAfterSplit
                      canSplit := decide (ctx.splitDepth < ctx.rules.resplitPairs) &&
                        (if a == Rank.A && b == Rank.A then ctx.rules.resplitAces
                        else true)
                      splitDepth := ctx.splitDepth + 1
                      isSplitAces := a == Rank.A && b == Rank.A }
                  (draw shoe r))
          else 0)).sum := by
    rw [splitPart_fst _ (fun h c s1 => hB (shoeTotal shoe) h c s1)]
    congr 1 <;>
      (refine congrArg List.sum (List.map_congr_left fun r _ => ?_)
       by_cases hr : 0 < shoe r
       · simp only [if_pos hr, apply_ite (fun p : ℚ × Shoe => p.1),
           bestActionEV, evStand, shoeTotal_draw shoe r hr]
       · simp only [if_neg hr])
  rw [← hSplitVal]
  clear hSplitVal
  unfold actionEVsFinite actionEVsFiniteS
  simp only [evStandS_snd, hhit]
  by_cases hab : normalizeRank a = normalizeRank b
  · rw [if_pos hab]
    split_ifs <;>
      simp_all [List.lookup, move_beq, doublePart_snd, Option.toList]
  · rw [if_neg hab]
    split_ifs <;>
      simp_all [List.lookup, move_beq, Option.toList]

/-- C9: when the shoe total is 0 at a point where a draw would occur, the
drawing branch contributes an empty distribution in the banker recursion and
a zero hit EV in the player engine, and every evaluation still returns
normally (the embedding is total, so no failure can be raised): a
would-be-drawing dealer state yields the empty distribution, the top-level
dealer distribution is empty, and the action table still carries Hit with
EV 0. -/
theorem C9_shoe_exhaustion (rules : Rules) (cards : List Rank) (s : Shoe)
    (f : Nat) (hand : List Rank) (ctx : PlayerContext) (up : Rank)
    (h0 : shoeTotal s = 0)
    (hn : ((cards.length == 2 && (handTotals cards).best == 21) : Bool) = false)
    (hb : (handTotals cards).best ≤ 21)
    (hs : shouldStand rules (handTotals cards) = false) :
    (probsForF (f + 1) rules cards s).1 = (fun _ => 0) ∧
    dealerOutcomeProbs up s rules = (fun _ => 0) ∧
    List.lookup Move.Hit (actionEVsFinite hand ctx s) = some 0 := by
  have hz := shoe_zero s h0
  refine ⟨?_, ?_, ?_⟩
  · simp only [probsForF]
    rw [if_neg (by simp [hn]), if_neg (by omega), if_neg (by simp [hs]),
      if_pos (by simpa using h0)]
  · unfold dealerOutcomeProbs dealerOutcomeProbsS
    rw [foldShoe_zero _ _ s hz]
    rfl
  · unfold actionEVsFinite actionEVsFiniteS
    simp only [evStandS_snd]
    rw [show hitPart (fun h c sh => bestActionEVF (shoeTotal s) h c sh)
        hand ctx s = (0, s) from by
      unfold hitPart
      exact foldShoe_zero _ _ s hz RANKS]
    simp [List.lookup, move_beq]

/-- C9 witness: the exhaustion behavior at the empty shoe, with the dealer
state 2-2 as the would-be-drawing hand. -/
theorem C9_shoe_exhaustion_witness :
    shoeTotal emptyShoe = 0 ∧
    ((([Rank.r2, Rank.r2].length == 2 &&
      (handTotals [Rank.r2, Rank.r2]).best == 21) : Bool) = false) ∧
    (handTotals [Rank.r2, Rank.r2]).best ≤ 21 ∧
    shouldStand DEFAULT_RULES (handTotals [Rank.r2, Rank.r2]) = false ∧
    ((probsForF 1 DEFAULT_RULES [Rank.r2, Rank.r2] emptyShoe).1 = (fun _ => 0) ∧
      dealerOutcomeProbs Rank.r6 emptyShoe DEFAULT_RULES = (fun _ => 0) ∧
      List.lookup Move.Hit (actionEVsFinite [Rank.r5] ctxPlain emptyShoe) = some 0) := by
  refine ⟨by decide, by decide, by decide, by decide, ?_⟩
  exact C9_shoe_exhaustion DEFAULT_RULES [Rank.r2, Rank.r2] emptyShoe 0
    [Rank.r5] ctxPlain Rank.r6 (by decide) (by decide) (by decide) (by decide)

/-- C10: the best total computed by `handTotals` is either the hard total or
the hard total plus 10, and it is the hard total plus 10 exactly when the
hand is soft — at most one ace ever contributes 11. -/
theorem C10_best_hard_soft (cards : List Rank) :
    ((handTotals cards).best = (handTotals cards).hard ∨
      (handTotals cards).best = (handTotals cards).hard + 10) ∧
    ((handTotals cards).best = (handTotals cards).hard + 10 ↔
      (handTotals cards).isSoft = true) := by
  by_cases h : (handTotals cards).isSoft = true
  · have hb := handTotals_soft_best cards h
    exact ⟨Or.inr hb, ⟨fun _ => h, fun _ => hb⟩⟩
  · rw [Bool.not_eq_true] at h
    have hb := handTotals_hard_best cards h
    refine ⟨Or.inl hb, ⟨fun he => by omega, fun he => ?_⟩⟩
    simp [h] at he

end BJack
